import Mathlib

/-!
Shallow embedding of the Battleship game engine (React app, `src/App.jsx`):
a 10×10 board, a fixed fleet of five ships placed at random without overlap,
shot resolution with sunk-ship detection, and session counters with win
detection.

Modelling conventions:
* JS arrays become `List`s; `board[r][c]` reads become `getCell` (total, with
  the empty cell as the out-of-range default) and element assignment becomes
  `setCell` (built on `List.set`, a no-op out of range).  In-range behaviour is
  what the source exercises; in-boundedness of every access is proved below.
* `Math.random()` becomes an explicit stream `g : Nat → Nat` of natural
  numbers together with a cursor: call number `i` reads `g i`.
  `randomInt g i max` embeds `Math.floor(Math.random() * max)` as `g i % max`,
  and the orientation coin `Math.random() < 0.5` reads one value and tests
  parity.
* The `throw` in `placeShip` (and its propagation through `buildBoard`)
  becomes `Option`: `none` is the thrown `PlacementFailure`.
* React state updates (`setShots`, `setHits`, …) become explicit state passing
  on a `GameState` record; the `useEffect` that sets `gameOver` once
  `hits ≥ totalShipCells` is folded into the shot transition, which is
  observationally the point at which it can first fire.
-/

set_option maxRecDepth 100000

namespace Battleship

/-- `const GRID_SIZE = 10`. -/
def GRID_SIZE : Nat := 10

/-- One catalogue entry `{ id, size, name }` of the `SHIPS` array. -/
structure Ship where
  id : String
  size : Nat
  name : String
  deriving DecidableEq, Repr

/-- The fixed fleet catalogue `SHIPS` (sizes 5, 4, 3, 3, 2). -/
def SHIPS : List Ship :=
  [⟨"A", 5, "Portaaviones"⟩,
   ⟨"B", 4, "Acorazado"⟩,
   ⟨"C", 3, "Crucero"⟩,
   ⟨"D", 3, "Submarino"⟩,
   ⟨"E", 2, "Destructor"⟩]

/-- A board cell `{ hasShip, hit, shipId, sunk }`. -/
structure Cell where
  hasShip : Bool
  hit : Bool
  shipId : Option String
  sunk : Bool
  deriving DecidableEq, Repr

/-- The cell value every board position starts from. -/
def emptyCell : Cell := ⟨false, false, none, false⟩

/-- A board is a matrix of cells (JS: array of rows of cell objects). -/
abbrev Board : Type := List (List Cell)

/-- `createEmptyBoard()`: a `GRID_SIZE × GRID_SIZE` matrix of empty cells. -/
def createEmptyBoard : Board :=
  List.replicate GRID_SIZE (List.replicate GRID_SIZE emptyCell)

/-- The read `board[r][c]`, totalised with `emptyCell` out of range. -/
def getCell (b : Board) (r c : Nat) : Cell :=
  (b.getD r []).getD c emptyCell

/-- The write `board[r][c] = x`, a no-op out of range (via `List.set`). -/
def setCell (b : Board) (r c : Nat) (x : Cell) : Board :=
  b.set r ((b.getD r []).set c x)

/-- Well-formedness: the board really is a 10×10 matrix. -/
def BoardWF (b : Board) : Prop :=
  b.length = GRID_SIZE ∧ ∀ row ∈ b, row.length = GRID_SIZE

/-- Ship orientation: the string `"H"` / `"V"` of the source. -/
inductive Dir where
  | H
  | V
  deriving DecidableEq, Repr

/-- `getStep(dir)`: offset `{dr, dc}` of the `k`-th cell from the origin. -/
def getStep (d : Dir) (k : Nat) : Nat × Nat :=
  match d with
  | .V => (k, 0)
  | .H => (0, k)

/-- A random stream: call number `i` of `Math.random()`-derived sampling
reads value `g i`. -/
abbrev Rng : Type := Nat → Nat

/-- `randomInt(max)` = `Math.floor(Math.random() * max)`, embedded as the
`i`-th stream value reduced mod `max`. -/
def randomInt (g : Rng) (i : Nat) (max : Nat) : Nat :=
  g i % max

/-- `dirLimits(dir, size)`: exclusive upper bounds `(maxRow, maxCol)` for the
origin sample. -/
def dirLimits (d : Dir) (size : Nat) : Nat × Nat :=
  (if d = .H then GRID_SIZE else GRID_SIZE - size + 1,
   if d = .V then GRID_SIZE else GRID_SIZE - size + 1)

/-- `canPlaceAt(board, r0, c0, dir, size)`: true iff none of the `size` cells
along the direction from the origin has a ship. -/
def canPlaceAt (b : Board) (r0 c0 : Nat) (d : Dir) (size : Nat) : Bool :=
  (List.range size).all fun k =>
    !(getCell b (r0 + (getStep d k).1) (c0 + (getStep d k).2)).hasShip

/-- The loop body of `writeShip`, one iteration per remaining index `k`:
sets `hasShip = true, shipId = ship.id` on each cell and collects the
coordinates in order. -/
def writeShipAux (r0 c0 : Nat) (d : Dir) (sid : String) :
    List Nat → Board → Board × List (Nat × Nat)
  | [], b => (b, [])
  | k :: ks, b =>
    let r := r0 + (getStep d k).1
    let c := c0 + (getStep d k).2
    let b2 := setCell b r c { getCell b r c with hasShip := true, shipId := some sid }
    let rest := writeShipAux r0 c0 d sid ks b2
    (rest.1, (r, c) :: rest.2)

/-- `writeShip(board, r0, c0, dir, ship)`: writes the ship's cells and returns
the updated board together with the recorded coordinates. -/
def writeShip (b : Board) (r0 c0 : Nat) (d : Dir) (ship : Ship) :
    Board × List (Nat × Nat) :=
  writeShipAux r0 c0 d ship.id (List.range ship.size) b

/-- The bounded retry loop of `placeShip` (`for tries = 0; tries < 500`):
`fuel` counts the remaining tries, `i` is the stream cursor; on success
returns the new board, the coordinates, and the advanced cursor; `none` is
the thrown placement error. -/
def placeShipGo (ship : Ship) (d : Dir) (maxRow maxCol : Nat) (g : Rng) :
    Nat → Nat → Board → Option (Board × List (Nat × Nat) × Nat)
  | 0, _, _ => none
  | fuel + 1, i, b =>
    let r0 := randomInt g i maxRow
    let c0 := randomInt g (i + 1) maxCol
    if canPlaceAt b r0 c0 d ship.size then
      let w := writeShip b r0 c0 d ship
      some (w.1, w.2, i + 2)
    else
      placeShipGo ship d maxRow maxCol g fuel (i + 2) b

/-- `placeShip(board, ship)` with the random stream and its cursor explicit:
`g i` decides the orientation, then the 500-try loop runs from cursor `i+1`. -/
def placeShip (b : Board) (ship : Ship) (g : Rng) (i : Nat) :
    Option (Board × List (Nat × Nat) × Nat) :=
  let d := if g i % 2 = 0 then Dir.H else Dir.V
  let lims := dirLimits d ship.size
  placeShipGo ship d lims.1 lims.2 g 500 (i + 1) b

/-- Recorded placements: `placements[ship.id] = coords`, as an association
list in catalogue order. -/
abbrev Placements : Type := List (String × List (Nat × Nat))

/-- The loop of `buildBoard` over the catalogue: place each ship in turn,
threading the board and the stream cursor; a placement failure propagates. -/
def buildBoardAux (g : Rng) :
    List Ship → Board → Placements → Nat → Option (Board × Placements)
  | [], b, ps, _ => some (b, ps)
  | ship :: rest, b, ps, i =>
    match placeShip b ship g i with
    | none => none
    | some (b2, coords, i2) => buildBoardAux g rest b2 (ps ++ [(ship.id, coords)]) i2

/-- `buildBoard()`: an empty board, then every catalogue ship placed. -/
def buildBoard (g : Rng) : Option (Board × Placements) :=
  buildBoardAux g SHIPS createEmptyBoard [] 0

/-- `getShipCells(board, shipId)`: all coordinates whose cell carries this
ship id, scanned in row-major order. -/
def getShipCells (b : Board) (sid : String) : List (Nat × Nat) :=
  (List.range GRID_SIZE).flatMap fun r =>
    (List.range GRID_SIZE).filterMap fun c =>
      if (getCell b r c).shipId = some sid then some (r, c) else none

/-- `isShipSunk(board, shipId)`: every cell of the ship is hit. -/
def isShipSunk (b : Board) (sid : String) : Bool :=
  (getShipCells b sid).all fun rc => (getCell b rc.1 rc.2).hit

/-- `markShipSunk(nextBoard, shipId)`: set `sunk = true` on every cell of the
ship. -/
def markShipSunk (b : Board) (sid : String) : Board :=
  (getShipCells b sid).foldl
    (fun acc rc => setCell acc rc.1 rc.2 { getCell acc rc.1 rc.2 with sunk := true }) b

/-- `totalShipCells`: the catalogue sizes summed by `reduce` (never a literal
constant in the source). -/
def totalShipCells : Nat :=
  SHIPS.foldl (fun acc s => acc + s.size) 0

/-- The session state: the board plus the `shots`, `hits`, `sunk`, `gameOver`
React state hooks. -/
structure GameState where
  board : Board
  shots : Nat
  hits : Nat
  sunk : Nat
  gameOver : Bool
  deriving DecidableEq, Repr

/-- The result record of `applyShot`: `{ changed, board, wasHit, shipId }`
(the latter two absent — defaulted — on the rejected paths). -/
structure ShotResult where
  changed : Bool
  board : Board
  wasHit : Bool
  shipId : Option String
  deriving Repr

/-- `applyShot(r, c)`: rejected when the game is over or the cell was already
hit; otherwise mark the cell hit on a fresh board. -/
def applyShot (s : GameState) (r c : Nat) : ShotResult :=
  if s.gameOver then ⟨false, s.board, false, none⟩
  else
    let cell := getCell s.board r c
    if cell.hit then ⟨false, s.board, false, none⟩
    else
      let nb := setCell s.board r c { cell with hit := true }
      ⟨true, nb, cell.hasShip, (getCell nb r c).shipId⟩

/-- `updateAfterHit(nextBoard, shipId)`: when the ship is now fully hit, mark
it sunk; returns the (possibly updated) board and the `justSunk` flag that
drives the `sunk` counter. -/
def updateAfterHit (b : Board) (shipId : Option String) : Board × Bool :=
  match shipId with
  | none => (b, false)
  | some sid =>
    if isShipSunk b sid then (markShipSunk b sid, true) else (b, false)

/-- `handleShot(r, c)` together with the `gameOver` effect: the full session
transition for one click. -/
def handleShot (s : GameState) (r c : Nat) : GameState :=
  let result := applyShot s r c
  if result.changed then
    let shots := s.shots + 1
    let hits := if result.wasHit then s.hits + 1 else s.hits
    let upd := if result.wasHit then updateAfterHit result.board result.shipId
               else (result.board, false)
    let sunk := if upd.2 then s.sunk + 1 else s.sunk
    let gameOver := if totalShipCells ≠ 0 ∧ totalShipCells ≤ hits then true else s.gameOver
    ⟨upd.1, shots, hits, sunk, gameOver⟩
  else s

/-- The zeroed session around a freshly built board. -/
def freshState (b : Board) : GameState :=
  ⟨b, 0, 0, 0, false⟩

/-- Game start (also `resetGame()`): build a board, zero every counter; a
placement failure propagates to the caller. -/
def newGame (g : Rng) : Option (GameState × Placements) :=
  match buildBoard g with
  | none => none
  | some (b, ps) => some (freshState b, ps)

/-- A sequence of clicks, left to right. -/
def playGame (s : GameState) (l : List (Nat × Nat)) : GameState :=
  l.foldl (fun acc rc => handleShot acc rc.1 rc.2) s

/-- The straight run of `size` cells from origin `(r0, c0)` along `d`: cell
number `k` sits at the origin plus `getStep d k`. -/
def segCoords (r0 c0 : Nat) (d : Dir) (size : Nat) : List (Nat × Nat) :=
  (List.range size).map fun k => (r0 + (getStep d k).1, c0 + (getStep d k).2)

/-- A coordinate list is a single contiguous axis-aligned run with no gaps. -/
def IsSegment (l : List (Nat × Nat)) : Prop :=
  ∃ r0 c0 d, l = segCoords r0 c0 d l.length

/-- The in-range cells whose `hasShip` flag is set. -/
def shipSet (b : Board) : Finset (Nat × Nat) :=
  (Finset.range GRID_SIZE ×ˢ Finset.range GRID_SIZE).filter
    fun rc => (getCell b rc.1 rc.2).hasShip

/-- The cell invariant over the grid: a cell claims a ship exactly when it
carries a ship id. -/
def BoardInv (b : Board) : Prop :=
  ∀ r, r < GRID_SIZE → ∀ c, c < GRID_SIZE →
    ((getCell b r c).hasShip = true ↔ (getCell b r c).shipId ≠ none)

/-- The session-level win-detection invariant: the `gameOver` flag agrees
with the `hits ≥ totalShipCells` test of the `useEffect`. -/
def SessionInv (s : GameState) : Prop :=
  s.gameOver = true ↔ totalShipCells ≤ s.hits

/-- Everything `buildBoardAux` maintains while placing the fleet. -/
structure BuildInv (b : Board) (ps : Placements) : Prop where
  wf : BoardWF b
  cells : ∀ r c, (getCell b r c).hasShip = true ↔ ∃ p ∈ ps, (r, c) ∈ p.2
  ids : ∀ r c, ((getCell b r c).hasShip = true ↔ (getCell b r c).shipId ≠ none)
  bounded : ∀ p ∈ ps, ∀ rc ∈ p.2, rc.1 < GRID_SIZE ∧ rc.2 < GRID_SIZE
  nodup : ∀ p ∈ ps, p.2.Nodup
  disj : ps.Pairwise fun p q => ∀ rc, rc ∈ p.2 → rc ∉ q.2

/-- A deterministic stream that places the whole fleet in rows 0–4, each ship
horizontal from column 0, every placement succeeding on its first try. -/
def g1 : Rng := fun i => [0, 0, 0, 0, 1, 0, 0, 2, 0, 0, 3, 0, 0, 4, 0].getD i 0

/-- The all-zeros stream: ship A lands on row 0 at column 0, and every later
origin draw is again `(0, 0)`, so ship B can never be placed. -/
def gBad : Rng := fun _ => 0

/-- The board built by `g1`: the fleet occupies rows 0–4. -/
def demoBoard : Board :=
  match buildBoard g1 with
  | some x => x.1
  | none => createEmptyBoard

/-- The placements recorded by `buildBoard g1`. -/
def demoPlacements : Placements :=
  match buildBoard g1 with
  | some x => x.2
  | none => []

/-- The 17 fleet cells of `demoBoard`, listed row by row. -/
def demoShots : List (Nat × Nat) :=
  [(0, 0), (0, 1), (0, 2), (0, 3), (0, 4),
   (1, 0), (1, 1), (1, 2), (1, 3),
   (2, 0), (2, 1), (2, 2),
   (3, 0), (3, 1), (3, 2),
   (4, 0), (4, 1)]

/-- An empty board with only ship A written in, for exercising a placement
failure of ship B. -/
def boardOnlyA : Board :=
  (writeShip createEmptyBoard 0 0 Dir.H ⟨"A", 5, "Portaaviones"⟩).1

/-- The demo game after hitting the first four cells of ship A. -/
def demoMidGame : GameState :=
  playGame (freshState demoBoard) [(0, 0), (0, 1), (0, 2), (0, 3)]

/-! ### Cell access and well-formedness lemmas -/

theorem getCell_eq_bind (b : Board) (r c : Nat) :
    getCell b r c = (b[r]?.bind fun row => row[c]?).getD emptyCell := by
  unfold getCell
  cases hrow : b[r]? with
  | none => simp [List.getD_eq_getElem?_getD, hrow]
  | some row => simp [List.getD_eq_getElem?_getD, hrow]

theorem getCell_setCell_of_ne (b : Board) {r c r2 c2 : Nat} (x : Cell)
    (h : r2 ≠ r ∨ c2 ≠ c) :
    getCell (setCell b r c x) r2 c2 = getCell b r2 c2 := by
  rw [getCell_eq_bind, getCell_eq_bind]
  unfold setCell
  rcases eq_or_ne r2 r with hr | hr
  · subst hr
    have hc : c2 ≠ c := h.resolve_left fun hh => hh rfl
    rw [List.getElem?_set_self']
    cases hrow : b[r2]? with
    | none => simp
    | some row =>
      have hgd : b.getD r2 [] = row := by
        simp [List.getD_eq_getElem?_getD, hrow]
      rw [hgd]
      simp only [Option.map_eq_map, Option.map_some', Option.some_bind, Function.const_apply]
      rw [List.getElem?_set_ne (Ne.symm hc)]
  · rw [List.getElem?_set_ne (Ne.symm hr)]

theorem getCell_setCell_self' {b : Board} {r c : Nat}
    (hrb : r < b.length) (hcb : c < (b.getD r []).length) (x : Cell) :
    getCell (setCell b r c x) r c = x := by
  rw [getCell_eq_bind]
  unfold setCell
  rw [List.getElem?_set_self hrb]
  simp only [Option.some_bind]
  rw [List.getElem?_set_self (by simpa using hcb)]
  rfl

theorem getD_row_length {b : Board} (h : BoardWF b) {r : Nat} (hr : r < GRID_SIZE) :
    (b.getD r []).length = GRID_SIZE := by
  have hlen : r < b.length := by rw [h.1]; exact hr
  have hgd : b.getD r [] = b[r] := by
    simp [List.getD_eq_getElem?_getD, List.getElem?_eq_getElem hlen]
  rw [hgd]
  exact h.2 _ (List.getElem_mem hlen)

theorem getCell_setCell_self {b : Board} (hwf : BoardWF b) {r c : Nat}
    (hr : r < GRID_SIZE) (hc : c < GRID_SIZE) (x : Cell) :
    getCell (setCell b r c x) r c = x := by
  refine getCell_setCell_self' (by rw [hwf.1]; exact hr) ?_ x
  rw [getD_row_length hwf hr]
  exact hc

theorem getCell_setCell (b : Board) (r c r2 c2 : Nat) (x : Cell) :
    getCell (setCell b r c x) r2 c2 = getCell b r2 c2 ∨
      (r2 = r ∧ c2 = c ∧ getCell (setCell b r c x) r2 c2 = x) := by
  rcases eq_or_ne r2 r with hr | hr
  · rcases eq_or_ne c2 c with hc | hc
    · subst hr; subst hc
      by_cases hrb : r2 < b.length
      · by_cases hcb : c2 < (b.getD r2 []).length
        · exact Or.inr ⟨rfl, rfl, getCell_setCell_self' hrb hcb x⟩
        · left
          unfold setCell
          rw [List.set_eq_of_length_le (Nat.le_of_not_lt hcb)]
          rw [getCell_eq_bind, getCell_eq_bind]
          rw [List.getElem?_set_self hrb]
          have hgd : b.getD r2 [] = b[r2] := by
            simp [List.getD_eq_getElem?_getD, List.getElem?_eq_getElem hrb]
          rw [hgd, List.getElem?_eq_getElem hrb]
      · left
        unfold setCell
        rw [List.set_eq_of_length_le (Nat.le_of_not_lt hrb)]
    · exact Or.inl (getCell_setCell_of_ne b x (Or.inr hc))
  · exact Or.inl (getCell_setCell_of_ne b x (Or.inl hr))

theorem length_setCell (b : Board) (r c : Nat) (x : Cell) :
    (setCell b r c x).length = b.length := by
  unfold setCell
  exact List.length_set ..

theorem BoardWF_setCell {b : Board} (h : BoardWF b) (r c : Nat) (x : Cell) :
    BoardWF (setCell b r c x) := by
  refine ⟨by rw [length_setCell]; exact h.1, ?_⟩
  intro row hrow
  unfold setCell at hrow
  by_cases hrb : r < b.length
  · rcases List.mem_or_eq_of_mem_set hrow with hmem | heq
    · exact h.2 _ hmem
    · subst heq
      rw [List.length_set]
      have hgd : b.getD r [] = b[r] := by
        simp [List.getD_eq_getElem?_getD, List.getElem?_eq_getElem hrb]
      rw [hgd]
      exact h.2 _ (List.getElem_mem hrb)
  · rw [List.set_eq_of_length_le (Nat.le_of_not_lt hrb)] at hrow
    exact h.2 _ hrow

theorem BoardWF_createEmptyBoard : BoardWF createEmptyBoard := by
  constructor
  · simp [createEmptyBoard]
  · intro row hrow
    unfold createEmptyBoard at hrow
    rw [List.eq_of_mem_replicate hrow]
    simp

theorem getCell_createEmptyBoard (r c : Nat) : getCell createEmptyBoard r c = emptyCell := by
  rw [getCell_eq_bind]
  unfold createEmptyBoard
  by_cases hr : r < GRID_SIZE <;> by_cases hc : c < GRID_SIZE <;>
    simp [List.getElem?_replicate, hr, hc]


/-! ### Placement lemmas -/

theorem writeShipAux_coords (r0 c0 : Nat) (d : Dir) (sid : String) (ks : List Nat)
    (b : Board) :
    (writeShipAux r0 c0 d sid ks b).2 =
      ks.map fun k => (r0 + (getStep d k).1, c0 + (getStep d k).2) := by
  induction ks generalizing b with
  | nil => rfl
  | cons k ks ih => simp [writeShipAux, ih]

theorem writeShip_coords (b : Board) (r0 c0 : Nat) (d : Dir) (ship : Ship) :
    (writeShip b r0 c0 d ship).2 = segCoords r0 c0 d ship.size := by
  unfold writeShip segCoords
  exact writeShipAux_coords ..

theorem BoardWF_writeShipAux (r0 c0 : Nat) (d : Dir) (sid : String) (ks : List Nat)
    {b : Board} (h : BoardWF b) :
    BoardWF (writeShipAux r0 c0 d sid ks b).1 := by
  induction ks generalizing b with
  | nil => exact h
  | cons k ks ih => exact ih (BoardWF_setCell h ..)

theorem getCell_writeShipAux_of_not_mem (r0 c0 : Nat) (d : Dir) (sid : String)
    (ks : List Nat) {b : Board} {r c : Nat}
    (h : (r, c) ∉ ks.map fun k => (r0 + (getStep d k).1, c0 + (getStep d k).2)) :
    getCell (writeShipAux r0 c0 d sid ks b).1 r c = getCell b r c := by
  induction ks generalizing b with
  | nil => rfl
  | cons k ks ih =>
    simp only [List.map_cons, List.mem_cons, not_or] at h
    show getCell (writeShipAux r0 c0 d sid ks _).1 r c = _
    rw [ih h.2]
    refine getCell_setCell_of_ne _ _ ?_
    by_cases hr : r = r0 + (getStep d k).1
    · right
      intro hcc
      exact h.1 (by rw [hr, hcc])
    · left
      exact hr

theorem getCell_writeShipAux_of_mem (r0 c0 : Nat) (d : Dir) (sid : String)
    (ks : List Nat) {b : Board} (hwf : BoardWF b) {r c : Nat}
    (hb : ∀ k ∈ ks, r0 + (getStep d k).1 < GRID_SIZE ∧ c0 + (getStep d k).2 < GRID_SIZE)
    (h : (r, c) ∈ ks.map fun k => (r0 + (getStep d k).1, c0 + (getStep d k).2)) :
    getCell (writeShipAux r0 c0 d sid ks b).1 r c =
      { getCell b r c with hasShip := true, shipId := some sid } := by
  induction ks generalizing b with
  | nil => simp at h
  | cons k ks ih =>
    have hwf2 : BoardWF (setCell b (r0 + (getStep d k).1) (c0 + (getStep d k).2)
        { getCell b (r0 + (getStep d k).1) (c0 + (getStep d k).2) with
            hasShip := true, shipId := some sid }) :=
      BoardWF_setCell hwf ..
    simp only [List.map_cons, List.mem_cons] at h
    show getCell (writeShipAux r0 c0 d sid ks _).1 r c = _
    rcases h with heq | hmem
    · simp only [Prod.mk.injEq] at heq
      obtain ⟨hr, hc⟩ := heq
      subst hr; subst hc
      by_cases hrest : (r0 + (getStep d k).1, c0 + (getStep d k).2) ∈
          ks.map fun j => (r0 + (getStep d j).1, c0 + (getStep d j).2)
      · rw [ih hwf2 (fun j hj => hb j (List.mem_cons_of_mem k hj)) hrest]
        rw [getCell_setCell_self hwf (hb k (List.mem_cons_self ..)).1
          (hb k (List.mem_cons_self ..)).2]
      · rw [getCell_writeShipAux_of_not_mem r0 c0 d sid ks hrest]
        rw [getCell_setCell_self hwf (hb k (List.mem_cons_self ..)).1
          (hb k (List.mem_cons_self ..)).2]
    · rw [ih hwf2 (fun j hj => hb j (List.mem_cons_of_mem k hj)) hmem]
      by_cases hr : r = r0 + (getStep d k).1
      · by_cases hc : c = c0 + (getStep d k).2
        · subst hr; subst hc
          rw [getCell_setCell_self hwf (hb k (List.mem_cons_self ..)).1
            (hb k (List.mem_cons_self ..)).2]
        · rw [getCell_setCell_of_ne _ _ (Or.inr hc)]
      · rw [getCell_setCell_of_ne _ _ (Or.inl hr)]

theorem canPlaceAt_iff (b : Board) (r0 c0 : Nat) (d : Dir) (size : Nat) :
    canPlaceAt b r0 c0 d size = true ↔
      ∀ rc ∈ segCoords r0 c0 d size, (getCell b rc.1 rc.2).hasShip = false := by
  unfold canPlaceAt segCoords
  rw [List.all_eq_true]
  constructor
  · rintro h rc hrc
    simp only [List.mem_map, List.mem_range] at hrc
    obtain ⟨k, hk, rfl⟩ := hrc
    have hx := h k (List.mem_range.mpr hk)
    simpa using hx
  · intro h k hk
    have hx := h _ (List.mem_map.mpr ⟨k, hk, rfl⟩)
    simpa using hx

theorem segCoords_length (r0 c0 : Nat) (d : Dir) (size : Nat) :
    (segCoords r0 c0 d size).length = size := by
  simp [segCoords]

theorem segCoords_nodup (r0 c0 : Nat) (d : Dir) (size : Nat) :
    (segCoords r0 c0 d size).Nodup := by
  unfold segCoords
  refine List.Nodup.map ?_ (List.nodup_range ..)
  intro a b hab
  cases d <;> simp [getStep, Prod.ext_iff] at hab <;> omega

theorem segCoords_isSegment (r0 c0 : Nat) (d : Dir) (size : Nat) :
    IsSegment (segCoords r0 c0 d size) := by
  refine ⟨r0, c0, d, ?_⟩
  rw [segCoords_length]

theorem segCoords_bounds {size : Nat} (h2 : size ≤ GRID_SIZE)
    (d : Dir) {r0 c0 : Nat} (hr : r0 < (dirLimits d size).1)
    (hc : c0 < (dirLimits d size).2) :
    ∀ rc ∈ segCoords r0 c0 d size, rc.1 < GRID_SIZE ∧ rc.2 < GRID_SIZE := by
  intro rc hrc
  simp only [segCoords, List.mem_map, List.mem_range] at hrc
  obtain ⟨k, hk, rfl⟩ := hrc
  have h2x : size ≤ 10 := h2
  cases d with
  | H =>
    have hrx : r0 < 10 := by simpa [dirLimits, GRID_SIZE] using hr
    have hcx : c0 < 10 - size + 1 := by simpa [dirLimits, GRID_SIZE] using hc
    simp only [getStep]
    show r0 + 0 < 10 ∧ c0 + k < 10
    omega
  | V =>
    have hrx : r0 < 10 - size + 1 := by simpa [dirLimits, GRID_SIZE] using hr
    have hcx : c0 < 10 := by simpa [dirLimits, GRID_SIZE] using hc
    simp only [getStep]
    show r0 + k < 10 ∧ c0 + 0 < 10
    omega

theorem dirLimits_pos (d : Dir) (size : Nat) :
    0 < (dirLimits d size).1 ∧ 0 < (dirLimits d size).2 := by
  cases d <;> simp [dirLimits, GRID_SIZE]

theorem placeShipGo_spec {ship : Ship} {d : Dir} {mr mc : Nat} {g : Rng}
    (hmr : 0 < mr) (hmc : 0 < mc) :
    ∀ {fuel i : Nat} {b b2 : Board} {coords : List (Nat × Nat)} {i2 : Nat},
      placeShipGo ship d mr mc g fuel i b = some (b2, coords, i2) →
      ∃ r0 c0, r0 < mr ∧ c0 < mc ∧ canPlaceAt b r0 c0 d ship.size = true ∧
        b2 = (writeShip b r0 c0 d ship).1 ∧ coords = (writeShip b r0 c0 d ship).2 := by
  intro fuel
  induction fuel with
  | zero =>
    intro i b b2 coords i2 h
    simp [placeShipGo] at h
  | succ fuel ih =>
    intro i b b2 coords i2 h
    rw [placeShipGo] at h
    by_cases hcan : canPlaceAt b (randomInt g i mr) (randomInt g (i + 1) mc) d ship.size
    · rw [if_pos hcan] at h
      have hx := Option.some.inj h
      simp only [Prod.mk.injEq] at hx
      exact ⟨randomInt g i mr, randomInt g (i + 1) mc, Nat.mod_lt _ hmr,
        Nat.mod_lt _ hmc, hcan, hx.1.symm, hx.2.1.symm⟩
    · rw [if_neg hcan] at h
      exact ih h

theorem placeShip_spec {b : Board} {ship : Ship} {g : Rng} {i : Nat}
    {b2 : Board} {coords : List (Nat × Nat)} {i2 : Nat}
    (h : placeShip b ship g i = some (b2, coords, i2)) :
    ∃ d r0 c0, r0 < (dirLimits d ship.size).1 ∧ c0 < (dirLimits d ship.size).2 ∧
      canPlaceAt b r0 c0 d ship.size = true ∧
      b2 = (writeShip b r0 c0 d ship).1 ∧ coords = (writeShip b r0 c0 d ship).2 := by
  unfold placeShip at h
  obtain ⟨r0, c0, h1, h2, h3, h4, h5⟩ :=
    placeShipGo_spec (dirLimits_pos _ ship.size).1 (dirLimits_pos _ ship.size).2 h
  exact ⟨_, r0, c0, h1, h2, h3, h4, h5⟩

/-! ### Fleet-placement invariant -/

theorem getCell_writeShip_of_not_mem {b : Board} {r c : Nat} (r0 c0 : Nat) (d : Dir)
    (ship : Ship) (h : (r, c) ∉ segCoords r0 c0 d ship.size) :
    getCell (writeShip b r0 c0 d ship).1 r c = getCell b r c :=
  getCell_writeShipAux_of_not_mem r0 c0 d ship.id (List.range ship.size) h

theorem getCell_writeShip_of_mem {b : Board} (hwf : BoardWF b) {r c r0 c0 : Nat}
    {d : Dir} {ship : Ship}
    (hbnd : ∀ rc ∈ segCoords r0 c0 d ship.size, rc.1 < GRID_SIZE ∧ rc.2 < GRID_SIZE)
    (h : (r, c) ∈ segCoords r0 c0 d ship.size) :
    getCell (writeShip b r0 c0 d ship).1 r c =
      { getCell b r c with hasShip := true, shipId := some ship.id } :=
  getCell_writeShipAux_of_mem r0 c0 d ship.id (List.range ship.size) hwf
    (fun k hk => hbnd _ (List.mem_map.mpr ⟨k, hk, rfl⟩)) h

theorem BoardWF_writeShip {b : Board} (hwf : BoardWF b) (r0 c0 : Nat) (d : Dir)
    (ship : Ship) : BoardWF (writeShip b r0 c0 d ship).1 :=
  BoardWF_writeShipAux r0 c0 d ship.id (List.range ship.size) hwf

theorem BuildInv_place {b : Board} {ps : Placements} (inv : BuildInv b ps)
    {ship : Ship} (h2 : ship.size ≤ GRID_SIZE)
    {g : Rng} {i : Nat} {b2 : Board} {coords : List (Nat × Nat)} {i2 : Nat}
    (h : placeShip b ship g i = some (b2, coords, i2)) :
    BuildInv b2 (ps ++ [(ship.id, coords)]) ∧ coords.length = ship.size ∧
      IsSegment coords := by
  obtain ⟨d, r0, c0, hr, hc, hcan, hb2, hcoords⟩ := placeShip_spec h
  subst hb2
  subst hcoords
  rw [writeShip_coords]
  have hbnd := segCoords_bounds h2 d hr hc
  have hfree := (canPlaceAt_iff b r0 c0 d ship.size).mp hcan
  refine ⟨⟨BoardWF_writeShip inv.wf r0 c0 d ship, ?_, ?_, ?_, ?_, ?_⟩,
    segCoords_length .., segCoords_isSegment ..⟩
  · intro r c
    by_cases hmem : (r, c) ∈ segCoords r0 c0 d ship.size
    · rw [getCell_writeShip_of_mem inv.wf hbnd hmem]
      simp only [List.mem_append, List.mem_singleton]
      constructor
      · intro _
        exact ⟨(ship.id, segCoords r0 c0 d ship.size), Or.inr rfl, hmem⟩
      · intro _
        trivial
    · rw [getCell_writeShip_of_not_mem r0 c0 d ship hmem]
      rw [inv.cells r c]
      constructor
      · rintro ⟨p, hp, hrc⟩
        exact ⟨p, List.mem_append_left _ hp, hrc⟩
      · rintro ⟨p, hp, hrc⟩
        rcases List.mem_append.mp hp with hp | hp
        · exact ⟨p, hp, hrc⟩
        · rw [List.mem_singleton.mp hp] at hrc
          exact absurd hrc hmem
  · intro r c
    by_cases hmem : (r, c) ∈ segCoords r0 c0 d ship.size
    · rw [getCell_writeShip_of_mem inv.wf hbnd hmem]
      simp
    · rw [getCell_writeShip_of_not_mem r0 c0 d ship hmem]
      exact inv.ids r c
  · intro p hp rc hrc
    rcases List.mem_append.mp hp with hp | hp
    · exact inv.bounded p hp rc hrc
    · rw [List.mem_singleton.mp hp] at hrc
      exact hbnd rc hrc
  · intro p hp
    rcases List.mem_append.mp hp with hp | hp
    · exact inv.nodup p hp
    · rw [List.mem_singleton.mp hp]
      exact segCoords_nodup ..
  · rw [List.pairwise_append]
    refine ⟨inv.disj, List.pairwise_singleton .., ?_⟩
    intro p hp q hq rc hrc
    rw [List.mem_singleton.mp hq]
    intro hseg
    have hship : (getCell b rc.1 rc.2).hasShip = true :=
      (inv.cells rc.1 rc.2).mpr ⟨p, hp, hrc⟩
    have hfree2 := hfree rc hseg
    rw [hship] at hfree2
    exact Bool.noConfusion hfree2

theorem buildBoardAux_inv {g : Rng} :
    ∀ (ships : List Ship) {b : Board} {ps : Placements} {i : Nat}
      {b2 : Board} {ps2 : Placements},
      buildBoardAux g ships b ps i = some (b2, ps2) →
      BuildInv b ps →
      (∀ s ∈ ships, s.size ≤ GRID_SIZE) →
      BuildInv b2 ps2 ∧ ∃ qs, ps2 = ps ++ qs ∧
        List.Forall₂ (fun p s => p.1 = s.id ∧ p.2.length = s.size ∧ IsSegment p.2)
          qs ships := by
  intro ships
  induction ships with
  | nil =>
    intro b ps i b2 ps2 h inv _
    rw [buildBoardAux] at h
    have hx := Option.some.inj h
    simp only [Prod.mk.injEq] at hx
    rw [← hx.1, ← hx.2]
    exact ⟨inv, [], by simp, List.Forall₂.nil⟩
  | cons ship rest ih =>
    intro b ps i b2 ps2 h inv hsz
    rw [buildBoardAux] at h
    cases hplace : placeShip b ship g i with
    | none =>
      rw [hplace] at h
      exact absurd h (by simp)
    | some x =>
      obtain ⟨bmid, coords, i2⟩ := x
      rw [hplace] at h
      obtain ⟨inv2, hlen, hseg⟩ := BuildInv_place inv (hsz ship (List.mem_cons_self ..)) hplace
      obtain ⟨inv3, qs, hps2, hfa⟩ :=
        ih h inv2 fun s hs => hsz s (List.mem_cons_of_mem _ hs)
      refine ⟨inv3, (ship.id, coords) :: qs, ?_, List.Forall₂.cons ⟨rfl, hlen, hseg⟩ hfa⟩
      rw [hps2]
      simp

theorem BuildInv_empty : BuildInv createEmptyBoard [] := by
  refine ⟨BoardWF_createEmptyBoard, ?_, ?_, by simp, by simp, by simp⟩
  · intro r c
    simp [getCell_createEmptyBoard, emptyCell]
  · intro r c
    simp [getCell_createEmptyBoard, emptyCell]

theorem buildBoard_inv {g : Rng} {b : Board} {ps : Placements}
    (h : buildBoard g = some (b, ps)) :
    BuildInv b ps ∧
      List.Forall₂ (fun p s => p.1 = s.id ∧ p.2.length = s.size ∧ IsSegment p.2)
        ps SHIPS := by
  obtain ⟨inv, qs, hps, hfa⟩ := buildBoardAux_inv SHIPS h BuildInv_empty (by decide)
  simp only [List.nil_append] at hps
  rw [hps]
  exact ⟨hps ▸ inv, hfa⟩

theorem shipSet_card_eq {b : Board} {ps : Placements} (inv : BuildInv b ps) :
    (shipSet b).card = (ps.flatMap fun p => p.2).length := by
  have hset : shipSet b = (ps.flatMap fun p => p.2).toFinset := by
    ext rc
    simp only [shipSet, Finset.mem_filter, Finset.mem_product, Finset.mem_range,
      List.mem_toFinset, List.mem_flatMap]
    constructor
    · rintro ⟨-, hship⟩
      obtain ⟨p, hp, hrc⟩ := (inv.cells rc.1 rc.2).mp hship
      exact ⟨p, hp, hrc⟩
    · rintro ⟨p, hp, hrc⟩
      exact ⟨inv.bounded p hp rc hrc, (inv.cells rc.1 rc.2).mpr ⟨p, hp, hrc⟩⟩
  rw [hset]
  refine List.toFinset_card_of_nodup ?_
  rw [List.nodup_flatMap]
  exact ⟨fun p hp => inv.nodup p hp, inv.disj.imp fun hpq rc h1 h2 => hpq rc h1 h2⟩

theorem flatMap_length_of_forall2 {ps : Placements} {ships : List Ship}
    (h : List.Forall₂ (fun p s => p.1 = s.id ∧ p.2.length = s.size ∧ IsSegment p.2)
      ps ships) :
    (ps.flatMap fun p => p.2).length = (ships.map Ship.size).sum := by
  induction h with
  | nil => rfl
  | cons hps _ ih => simp [hps.2.1, ih]

/-! ### Shot-resolution lemmas -/

theorem mem_getShipCells {b : Board} {sid : String} {rc : Nat × Nat} :
    rc ∈ getShipCells b sid ↔
      rc.1 < GRID_SIZE ∧ rc.2 < GRID_SIZE ∧ (getCell b rc.1 rc.2).shipId = some sid := by
  obtain ⟨r, c⟩ := rc
  simp only [getShipCells, List.mem_flatMap, List.mem_filterMap, List.mem_range]
  constructor
  · rintro ⟨r2, hr2, c2, hc2, hif⟩
    by_cases hcond : (getCell b r2 c2).shipId = some sid
    · rw [if_pos hcond] at hif
      simp only [Option.some.injEq, Prod.mk.injEq] at hif
      obtain ⟨h1, h2⟩ := hif
      subst h1
      subst h2
      exact ⟨hr2, hc2, hcond⟩
    · rw [if_neg hcond] at hif
      exact absurd hif (by simp)
  · rintro ⟨hr, hc, hsid⟩
    exact ⟨r, hr, c, hc, by rw [if_pos hsid]⟩

theorem getCell_foldSunk {L : List (Nat × Nat)} :
    ∀ {b : Board}, BoardWF b →
      (∀ rc ∈ L, rc.1 < GRID_SIZE ∧ rc.2 < GRID_SIZE) →
      ∀ r c,
        getCell (L.foldl (fun acc rc => setCell acc rc.1 rc.2
          { getCell acc rc.1 rc.2 with sunk := true }) b) r c =
        if (r, c) ∈ L then { getCell b r c with sunk := true } else getCell b r c := by
  induction L with
  | nil =>
    intro b _ _ r c
    simp
  | cons rc0 L ih =>
    obtain ⟨a1, a2⟩ := rc0
    intro b hwf hbnd r c
    have hb0 : a1 < GRID_SIZE ∧ a2 < GRID_SIZE := hbnd (a1, a2) (List.mem_cons_self ..)
    rw [List.foldl_cons,
      ih (BoardWF_setCell hwf ..) (fun rc h => hbnd rc (List.mem_cons_of_mem _ h)) r c]
    by_cases heq : (r, c) = (a1, a2)
    · simp only [Prod.mk.injEq] at heq
      obtain ⟨hr, hc⟩ := heq
      subst hr
      subst hc
      rw [getCell_setCell_self hwf hb0.1 hb0.2, if_pos (List.mem_cons_self ..)]
      by_cases hin : (r, c) ∈ L
      · rw [if_pos hin]
      · rw [if_neg hin]
    · have hne : r ≠ a1 ∨ c ≠ a2 := by
        by_cases hr : r = a1
        · refine Or.inr fun hc => heq ?_
          rw [hr, hc]
        · exact Or.inl hr
      rw [getCell_setCell_of_ne _ _ hne]
      by_cases hin : (r, c) ∈ L
      · rw [if_pos hin, if_pos (List.mem_cons_of_mem _ hin)]
      · rw [if_neg hin, if_neg (by simp [List.mem_cons, heq, hin])]

theorem getCell_foldSunk_cases (L : List (Nat × Nat)) :
    ∀ (b : Board) (r c : Nat),
      getCell (L.foldl (fun acc rc => setCell acc rc.1 rc.2
        { getCell acc rc.1 rc.2 with sunk := true }) b) r c = getCell b r c ∨
      getCell (L.foldl (fun acc rc => setCell acc rc.1 rc.2
        { getCell acc rc.1 rc.2 with sunk := true }) b) r c =
        { getCell b r c with sunk := true } := by
  induction L with
  | nil =>
    intro b r c
    exact Or.inl rfl
  | cons rc0 L ih =>
    intro b r c
    rw [List.foldl_cons]
    rcases getCell_setCell b rc0.1 rc0.2 r c { getCell b rc0.1 rc0.2 with sunk := true }
      with h2 | ⟨hr, hc, h2⟩
    · rcases ih (setCell b rc0.1 rc0.2 { getCell b rc0.1 rc0.2 with sunk := true }) r c
        with h | h
      · exact Or.inl (by rw [h, h2])
      · exact Or.inr (by rw [h, h2])
    · rcases ih (setCell b rc0.1 rc0.2 { getCell b rc0.1 rc0.2 with sunk := true }) r c
        with h | h
      · refine Or.inr ?_
        rw [h, h2, hr, hc]
      · refine Or.inr ?_
        rw [h, h2, hr, hc]

theorem BoardWF_foldSunk (L : List (Nat × Nat)) :
    ∀ {b : Board}, BoardWF b →
      BoardWF (L.foldl (fun acc rc => setCell acc rc.1 rc.2
        { getCell acc rc.1 rc.2 with sunk := true }) b) := by
  induction L with
  | nil => intro b h; exact h
  | cons rc0 L ih =>
    intro b h
    rw [List.foldl_cons]
    exact ih (BoardWF_setCell h ..)

theorem BoardWF_markShipSunk {b : Board} (hwf : BoardWF b) (sid : String) :
    BoardWF (markShipSunk b sid) :=
  BoardWF_foldSunk _ hwf

theorem getCell_markShipSunk {b : Board} (hwf : BoardWF b) (sid : String) (r c : Nat) :
    getCell (markShipSunk b sid) r c =
      if r < GRID_SIZE ∧ c < GRID_SIZE ∧ (getCell b r c).shipId = some sid
      then { getCell b r c with sunk := true } else getCell b r c := by
  unfold markShipSunk
  rw [getCell_foldSunk hwf
    (fun rc h => ⟨(mem_getShipCells.mp h).1, (mem_getShipCells.mp h).2.1⟩) r c]
  by_cases h : (r, c) ∈ getShipCells b sid
  · rw [if_pos h, if_pos (by simpa using mem_getShipCells.mp h)]
  · rw [if_neg h, if_neg fun hx => h (mem_getShipCells.mpr (by simpa using hx))]

theorem getCell_markShipSunk_cases (b : Board) (sid : String) (r c : Nat) :
    getCell (markShipSunk b sid) r c = getCell b r c ∨
    getCell (markShipSunk b sid) r c = { getCell b r c with sunk := true } :=
  getCell_foldSunk_cases _ b r c

theorem applyShot_rejected {s : GameState} {r c : Nat}
    (h : s.gameOver = true ∨ (getCell s.board r c).hit = true) :
    applyShot s r c = ⟨false, s.board, false, none⟩ := by
  by_cases hgo : s.gameOver = true
  · simp [applyShot, hgo]
  · have hh : (getCell s.board r c).hit = true := h.resolve_left hgo
    simp [applyShot, hgo, hh]

theorem applyShot_accepted {s : GameState} {r c : Nat}
    (hgo : s.gameOver = false) (hh : (getCell s.board r c).hit = false) :
    applyShot s r c =
      ⟨true, setCell s.board r c { getCell s.board r c with hit := true },
        (getCell s.board r c).hasShip,
        (getCell (setCell s.board r c { getCell s.board r c with hit := true }) r c).shipId⟩ := by
  simp [applyShot, hgo, hh]

theorem handleShot_rejected {s : GameState} {r c : Nat}
    (h : s.gameOver = true ∨ (getCell s.board r c).hit = true) :
    handleShot s r c = s := by
  simp [handleShot, applyShot_rejected h]

theorem handleShot_accepted {s : GameState} {r c : Nat}
    (hgo : s.gameOver = false) (hh : (getCell s.board r c).hit = false) :
    handleShot s r c =
      { board :=
          (if (getCell s.board r c).hasShip then
            updateAfterHit
              (setCell s.board r c { getCell s.board r c with hit := true })
              (getCell (setCell s.board r c { getCell s.board r c with hit := true }) r c).shipId
          else (setCell s.board r c { getCell s.board r c with hit := true }, false)).1,
        shots := s.shots + 1,
        hits := if (getCell s.board r c).hasShip then s.hits + 1 else s.hits,
        sunk :=
          if (if (getCell s.board r c).hasShip then
              updateAfterHit
                (setCell s.board r c { getCell s.board r c with hit := true })
                (getCell (setCell s.board r c { getCell s.board r c with hit := true }) r c).shipId
            else (setCell s.board r c { getCell s.board r c with hit := true }, false)).2
          then s.sunk + 1 else s.sunk,
        gameOver :=
          if totalShipCells ≠ 0 ∧
              totalShipCells ≤ (if (getCell s.board r c).hasShip then s.hits + 1 else s.hits)
          then true else s.gameOver } := by
  simp only [handleShot, applyShot_accepted hgo hh]
  simp

/-! ### Session lemmas -/

theorem totalShipCells_eq : totalShipCells = 17 := by decide

theorem totalShipCells_eq_sum : totalShipCells = (SHIPS.map Ship.size).sum := by decide

theorem not_rejected_flags {s : GameState} {r c : Nat}
    (hrej : ¬(s.gameOver = true ∨ (getCell s.board r c).hit = true)) :
    s.gameOver = false ∧ (getCell s.board r c).hit = false := by
  constructor
  · cases hx : s.gameOver
    · rfl
    · exact absurd (Or.inl hx) hrej
  · cases hx : (getCell s.board r c).hit
    · rfl
    · exact absurd (Or.inr hx) hrej

theorem updateAfterHit_board_cases (b : Board) (sid : Option String) (r c : Nat) :
    getCell (updateAfterHit b sid).1 r c = getCell b r c ∨
    getCell (updateAfterHit b sid).1 r c = { getCell b r c with sunk := true } := by
  cases sid with
  | none => exact Or.inl rfl
  | some x =>
    show getCell (if isShipSunk b x = true then (markShipSunk b x, true) else (b, false)).1 r c
        = getCell b r c ∨
      getCell (if isShipSunk b x = true then (markShipSunk b x, true) else (b, false)).1 r c
        = { getCell b r c with sunk := true }
    by_cases h : isShipSunk b x = true
    · rw [if_pos h]
      exact getCell_markShipSunk_cases b x r c
    · rw [if_neg h]
      exact Or.inl rfl

theorem handleShot_board_cases (s : GameState) (r c r2 c2 : Nat) :
    getCell (handleShot s r c).board r2 c2 = getCell s.board r2 c2 ∨
    getCell (handleShot s r c).board r2 c2 = { getCell s.board r2 c2 with hit := true } ∨
    getCell (handleShot s r c).board r2 c2 = { getCell s.board r2 c2 with sunk := true } ∨
    getCell (handleShot s r c).board r2 c2 =
      { getCell s.board r2 c2 with hit := true, sunk := true } := by
  by_cases hrej : s.gameOver = true ∨ (getCell s.board r c).hit = true
  · rw [handleShot_rejected hrej]
    exact Or.inl rfl
  · obtain ⟨hgo, hh⟩ := not_rejected_flags hrej
    rw [handleShot_accepted hgo hh]
    have hnb := getCell_setCell s.board r c r2 c2 { getCell s.board r c with hit := true }
    by_cases hship : (getCell s.board r c).hasShip = true
    · rw [if_pos hship]
      rcases updateAfterHit_board_cases
          (setCell s.board r c { getCell s.board r c with hit := true })
          (getCell (setCell s.board r c { getCell s.board r c with hit := true }) r c).shipId
          r2 c2 with hu | hu
      · rcases hnb with hn | ⟨he1, he2, hn⟩
        · exact Or.inl (by rw [hu, hn])
        · refine Or.inr (Or.inl ?_)
          rw [hu, hn, he1, he2]
      · rcases hnb with hn | ⟨he1, he2, hn⟩
        · exact Or.inr (Or.inr (Or.inl (by rw [hu, hn])))
        · refine Or.inr (Or.inr (Or.inr ?_))
          rw [hu, hn, he1, he2]
    · rw [if_neg hship]
      rcases hnb with hn | ⟨he1, he2, hn⟩
      · exact Or.inl hn
      · refine Or.inr (Or.inl ?_)
        rw [hn, he1, he2]

theorem handleShot_mono (s : GameState) (r c : Nat) :
    s.shots ≤ (handleShot s r c).shots ∧ s.hits ≤ (handleShot s r c).hits ∧
    s.sunk ≤ (handleShot s r c).sunk ∧
    ∀ r2 c2,
      ((getCell s.board r2 c2).hit = true →
        (getCell (handleShot s r c).board r2 c2).hit = true) ∧
      ((getCell s.board r2 c2).sunk = true →
        (getCell (handleShot s r c).board r2 c2).sunk = true) := by
  refine ⟨?_, ?_, ?_, ?_⟩
  · by_cases hrej : s.gameOver = true ∨ (getCell s.board r c).hit = true
    · rw [handleShot_rejected hrej]
    · obtain ⟨hgo, hh⟩ := not_rejected_flags hrej
      rw [handleShot_accepted hgo hh]
      exact Nat.le_succ _
  · by_cases hrej : s.gameOver = true ∨ (getCell s.board r c).hit = true
    · rw [handleShot_rejected hrej]
    · obtain ⟨hgo, hh⟩ := not_rejected_flags hrej
      rw [handleShot_accepted hgo hh]
      have hb : ∀ bb : Bool, s.hits ≤ if bb = true then s.hits + 1 else s.hits := by
        intro bb
        cases bb <;> simp
      exact hb _
  · by_cases hrej : s.gameOver = true ∨ (getCell s.board r c).hit = true
    · rw [handleShot_rejected hrej]
    · obtain ⟨hgo, hh⟩ := not_rejected_flags hrej
      rw [handleShot_accepted hgo hh]
      have hb : ∀ bb : Bool, s.sunk ≤ if bb = true then s.sunk + 1 else s.sunk := by
        intro bb
        cases bb <;> simp
      exact hb _
  · intro r2 c2
    constructor
    · intro hx
      rcases handleShot_board_cases s r c r2 c2 with h | h | h | h <;> rw [h] <;> simp [hx]
    · intro hx
      rcases handleShot_board_cases s r c r2 c2 with h | h | h | h <;> rw [h] <;> simp [hx]

theorem playGame_nil (s : GameState) : playGame s [] = s := rfl

theorem playGame_cons (s : GameState) (rc : Nat × Nat) (l : List (Nat × Nat)) :
    playGame s (rc :: l) = playGame (handleShot s rc.1 rc.2) l := rfl

theorem playGame_mono (s : GameState) (l : List (Nat × Nat)) :
    s.shots ≤ (playGame s l).shots ∧ s.hits ≤ (playGame s l).hits ∧
    s.sunk ≤ (playGame s l).sunk ∧
    ∀ r c,
      ((getCell s.board r c).hit = true → (getCell (playGame s l).board r c).hit = true) ∧
      ((getCell s.board r c).sunk = true → (getCell (playGame s l).board r c).sunk = true) := by
  induction l generalizing s with
  | nil => exact ⟨Nat.le_refl _, Nat.le_refl _, Nat.le_refl _, fun r c => ⟨id, id⟩⟩
  | cons rc l ih =>
    obtain ⟨h1, h2, h3, h4⟩ := handleShot_mono s rc.1 rc.2
    obtain ⟨g1, g2, g3, g4⟩ := ih (handleShot s rc.1 rc.2)
    rw [playGame_cons]
    exact ⟨Nat.le_trans h1 g1, Nat.le_trans h2 g2, Nat.le_trans h3 g3,
      fun r c => ⟨fun hx => (g4 r c).1 ((h4 r c).1 hx),
        fun hx => (g4 r c).2 ((h4 r c).2 hx)⟩⟩

theorem SessionInv_handleShot {s : GameState} (h : SessionInv s) (r c : Nat) :
    SessionInv (handleShot s r c) := by
  by_cases hrej : s.gameOver = true ∨ (getCell s.board r c).hit = true
  · rw [handleShot_rejected hrej]
    exact h
  · obtain ⟨hgo, hh⟩ := not_rejected_flags hrej
    rw [handleShot_accepted hgo hh]
    unfold SessionInv at h ⊢
    show (if totalShipCells ≠ 0 ∧
        totalShipCells ≤ (if (getCell s.board r c).hasShip = true then s.hits + 1 else s.hits)
      then true else s.gameOver) = true ↔
      totalShipCells ≤ (if (getCell s.board r c).hasShip = true then s.hits + 1 else s.hits)
    have h17 : totalShipCells ≠ 0 := by rw [totalShipCells_eq]; decide
    by_cases hcond : totalShipCells ≤
        (if (getCell s.board r c).hasShip = true then s.hits + 1 else s.hits)
    · rw [if_pos ⟨h17, hcond⟩]
      exact ⟨fun _ => hcond, fun _ => rfl⟩
    · rw [if_neg fun hx => hcond hx.2, hgo]
      exact ⟨fun hx => Bool.noConfusion hx, fun hx => absurd hx hcond⟩

theorem SessionInv_playGame {s : GameState} (h : SessionInv s) (l : List (Nat × Nat)) :
    SessionInv (playGame s l) := by
  induction l generalizing s with
  | nil => exact h
  | cons rc l ih =>
    rw [playGame_cons]
    exact ih (SessionInv_handleShot h rc.1 rc.2)

theorem SessionInv_freshState (b : Board) : SessionInv (freshState b) := by
  unfold SessionInv freshState
  rw [totalShipCells_eq]
  simp

theorem playGame_gameOver_persist {s : GameState} (h : s.gameOver = true)
    (l : List (Nat × Nat)) : playGame s l = s := by
  induction l with
  | nil => rfl
  | cons rc l ih =>
    rw [playGame_cons, handleShot_rejected (Or.inl h)]
    exact ih

/-! ### Frame and sunk-detection helpers -/

theorem accepted_flags {s : GameState} {r c : Nat}
    (hacc : (applyShot s r c).changed = true) :
    s.gameOver = false ∧ (getCell s.board r c).hit = false := by
  by_cases hrej : s.gameOver = true ∨ (getCell s.board r c).hit = true
  · rw [applyShot_rejected hrej] at hacc
    exact absurd hacc (by simp)
  · exact not_rejected_flags hrej

theorem setCell_hit_fields (b : Board) (r c r2 c2 : Nat) :
    ((getCell (setCell b r c { getCell b r c with hit := true }) r2 c2).hasShip =
      (getCell b r2 c2).hasShip) ∧
    ((getCell (setCell b r c { getCell b r c with hit := true }) r2 c2).shipId =
      (getCell b r2 c2).shipId) ∧
    ((getCell (setCell b r c { getCell b r c with hit := true }) r2 c2).sunk =
      (getCell b r2 c2).sunk) ∧
    ((r2 ≠ r ∨ c2 ≠ c) →
      (getCell (setCell b r c { getCell b r c with hit := true }) r2 c2).hit =
        (getCell b r2 c2).hit) := by
  rcases getCell_setCell b r c r2 c2 { getCell b r c with hit := true }
    with h | ⟨h1, h2, h⟩
  · rw [h]
    exact ⟨rfl, rfl, rfl, fun _ => rfl⟩
  · subst h1
    subst h2
    rw [h]
    refine ⟨rfl, rfl, rfl, fun hne => ?_⟩
    rcases hne with hne | hne <;> exact absurd rfl hne

theorem markShipSunk_fields (b : Board) (sid : String) (r2 c2 : Nat) :
    ((getCell (markShipSunk b sid) r2 c2).hasShip = (getCell b r2 c2).hasShip) ∧
    ((getCell (markShipSunk b sid) r2 c2).shipId = (getCell b r2 c2).shipId) ∧
    ((getCell (markShipSunk b sid) r2 c2).hit = (getCell b r2 c2).hit) := by
  rcases getCell_markShipSunk_cases b sid r2 c2 with h | h <;> rw [h] <;>
    exact ⟨rfl, rfl, rfl⟩

theorem updateAfterHit_fields (b : Board) (sid : Option String) (r2 c2 : Nat) :
    ((getCell (updateAfterHit b sid).1 r2 c2).hasShip = (getCell b r2 c2).hasShip) ∧
    ((getCell (updateAfterHit b sid).1 r2 c2).shipId = (getCell b r2 c2).shipId) ∧
    ((getCell (updateAfterHit b sid).1 r2 c2).hit = (getCell b r2 c2).hit) := by
  rcases updateAfterHit_board_cases b sid r2 c2 with h | h <;> rw [h] <;>
    exact ⟨rfl, rfl, rfl⟩

theorem updateAfterHit_some_def (b : Board) (x : String) :
    updateAfterHit b (some x) =
      if isShipSunk b x = true then (markShipSunk b x, true) else (b, false) := rfl

theorem updateAfterHit_sunk_change {b : Board} (hwf : BoardWF b) (sid : Option String)
    (r2 c2 : Nat)
    (h : (getCell (updateAfterHit b sid).1 r2 c2).sunk ≠ (getCell b r2 c2).sunk) :
    (getCell b r2 c2).shipId = sid ∧
      (getCell (updateAfterHit b sid).1 r2 c2).sunk = true := by
  cases sid with
  | none => exact absurd rfl h
  | some x =>
    rw [updateAfterHit_some_def] at h ⊢
    by_cases hsunk : isShipSunk b x = true
    · rw [if_pos hsunk] at h ⊢
      rw [getCell_markShipSunk hwf x r2 c2] at h ⊢
      by_cases hcond : r2 < GRID_SIZE ∧ c2 < GRID_SIZE ∧
          (getCell b r2 c2).shipId = some x
      · rw [if_pos hcond] at h ⊢
        exact ⟨hcond.2.2, rfl⟩
      · rw [if_neg hcond] at h
        exact absurd rfl h
    · rw [if_neg hsunk] at h
      exact absurd rfl h

theorem handleShot_target_hit {s : GameState} {r c : Nat} (hwf : BoardWF s.board)
    (hr : r < GRID_SIZE) (hc : c < GRID_SIZE)
    (hgo : s.gameOver = false) (hh : (getCell s.board r c).hit = false) :
    (getCell (handleShot s r c).board r c).hit = true := by
  rw [handleShot_accepted hgo hh]
  have hnb : getCell (setCell s.board r c { getCell s.board r c with hit := true }) r c
      = { getCell s.board r c with hit := true } := getCell_setCell_self hwf hr hc _
  by_cases hship : (getCell s.board r c).hasShip = true
  · rw [if_pos hship]
    have hupd := (updateAfterHit_fields
      (setCell s.board r c { getCell s.board r c with hit := true })
      (getCell (setCell s.board r c { getCell s.board r c with hit := true }) r c).shipId
      r c).2.2
    rw [hupd, hnb]
  · rw [if_neg hship]
    show (getCell (setCell s.board r c { getCell s.board r c with hit := true }) r c).hit
      = true
    rw [hnb]

theorem isShipSunk_iff (b : Board) (sid : String) :
    isShipSunk b sid = true ↔
      ∀ rc ∈ getShipCells b sid, (getCell b rc.1 rc.2).hit = true := by
  unfold isShipSunk
  rw [List.all_eq_true]

/-! ### Claims -/

theorem buildBoard_g1_eq : buildBoard g1 = some (demoBoard, demoPlacements) := by
  unfold demoBoard demoPlacements
  rfl

/-- C1: the claim as stated is false on this code: after the concrete game
`demoShots` on the board built by `g1`, the hit count is 17 — it never
reaches 20 at any point of the game — yet `gameOver` is `true`. -/
theorem C1_counterexample :
    buildBoard g1 = some (demoBoard, demoPlacements) ∧
    (playGame (freshState demoBoard) demoShots).gameOver = true ∧
    (playGame (freshState demoBoard) demoShots).hits = 17 ∧
    (∀ n, n < 18 → (playGame (freshState demoBoard) (demoShots.take n)).hits < 20) := by
  refine ⟨buildBoard_g1_eq, by decide, by decide, by decide⟩

/-- C1 (amended): within one game the session flag `gameOver` is true exactly
when the cumulative hit count has reached `totalShipCells` (= 17, the fleet
total), and once true the state is frozen — every later shot leaves the
session unchanged, so `gameOver` stays true until an explicit reset. -/
theorem C1_gameOver_iff_totalShipCells (b : Board) (l l2 : List (Nat × Nat)) :
    ((playGame (freshState b) l).gameOver = true ↔
      totalShipCells ≤ (playGame (freshState b) l).hits) ∧
    ((playGame (freshState b) l).gameOver = true →
      playGame (playGame (freshState b) l) l2 = playGame (freshState b) l ∧
      (playGame (playGame (freshState b) l) l2).gameOver = true) := by
  have hinv := SessionInv_playGame (SessionInv_freshState b) l
  refine ⟨hinv, fun h => ?_⟩
  rw [playGame_gameOver_persist h l2]
  exact ⟨rfl, h⟩

/-- Witness for the C1 amendment at a concrete finished game. -/
theorem C1_witness :
    playGame (playGame (freshState demoBoard) demoShots) [(5, 5)] =
      playGame (freshState demoBoard) demoShots ∧
    (playGame (playGame (freshState demoBoard) demoShots) [(5, 5)]).gameOver = true :=
  (C1_gameOver_iff_totalShipCells demoBoard demoShots [(5, 5)]).2 (by decide)

/-- C2: the win threshold `totalShipCells` is computed as the sum of the
catalogue sizes (5+4+3+3+2 = 17), not hardcoded, and within one game
`gameOver` is true exactly when the hit count has reached 17. -/
theorem C2_threshold_is_fleet_sum (b : Board) (l : List (Nat × Nat)) :
    totalShipCells = (SHIPS.map Ship.size).sum ∧ totalShipCells = 17 ∧
    ((playGame (freshState b) l).gameOver = true ↔
      17 ≤ (playGame (freshState b) l).hits) := by
  refine ⟨totalShipCells_eq_sum, totalShipCells_eq, ?_⟩
  have hinv := SessionInv_playGame (SessionInv_freshState b) l
  rw [SessionInv, totalShipCells_eq] at hinv
  exact hinv

theorem handleShot_board_accepted {s : GameState} {r c : Nat}
    (hgo : s.gameOver = false) (hh : (getCell s.board r c).hit = false) :
    (handleShot s r c).board =
      (if (getCell s.board r c).hasShip = true then
        updateAfterHit (setCell s.board r c { getCell s.board r c with hit := true })
          (getCell (setCell s.board r c
            { getCell s.board r c with hit := true }) r c).shipId
      else (setCell s.board r c { getCell s.board r c with hit := true }, false)).1 := by
  rw [handleShot_accepted hgo hh]

theorem BoardWF_updateAfterHit {b : Board} (h : BoardWF b) (sid : Option String) :
    BoardWF (updateAfterHit b sid).1 := by
  cases sid with
  | none => exact h
  | some x =>
    rw [updateAfterHit_some_def]
    by_cases hs : isShipSunk b x = true
    · rw [if_pos hs]
      exact BoardWF_markShipSunk h x
    · rw [if_neg hs]
      exact h

theorem BoardWF_handleShot {s : GameState} (h : BoardWF s.board) (r c : Nat) :
    BoardWF (handleShot s r c).board := by
  by_cases hrej : s.gameOver = true ∨ (getCell s.board r c).hit = true
  · rw [handleShot_rejected hrej]
    exact h
  · obtain ⟨hgo, hh⟩ := not_rejected_flags hrej
    rw [handleShot_board_accepted hgo hh]
    by_cases hship : (getCell s.board r c).hasShip = true
    · rw [if_pos hship]
      exact BoardWF_updateAfterHit (BoardWF_setCell h ..) _
    · rw [if_neg hship]
      exact BoardWF_setCell h ..

theorem BoardWF_playGame {s : GameState} (h : BoardWF s.board)
    (l : List (Nat × Nat)) : BoardWF (playGame s l).board := by
  induction l generalizing s with
  | nil => exact h
  | cons rc l ih =>
    rw [playGame_cons]
    exact ih (BoardWF_handleShot h rc.1 rc.2)

theorem BoardWF_demoBoard : BoardWF demoBoard :=
  (buildBoard_inv buildBoard_g1_eq).1.wf

/-- C3: a shot on an already-hit cell, or any shot once the game is over, is
rejected: `applyShot` reports no change and the whole session (board and all
counters) is left untouched; in particular the second of two shots on the
same in-bounds cell is rejected with no counter changes. -/
theorem C3_rejected_shots_no_op (s : GameState) (r c : Nat)
    (hwf : BoardWF s.board) (hr : r < GRID_SIZE) (hc : c < GRID_SIZE) :
    ((s.gameOver = true ∨ (getCell s.board r c).hit = true) →
      (applyShot s r c).changed = false ∧ handleShot s r c = s) ∧
    ((applyShot (handleShot s r c) r c).changed = false ∧
      handleShot (handleShot s r c) r c = handleShot s r c) := by
  constructor
  · intro h
    rw [applyShot_rejected h, handleShot_rejected h]
    exact ⟨rfl, rfl⟩
  · by_cases hrej : s.gameOver = true ∨ (getCell s.board r c).hit = true
    · rw [handleShot_rejected hrej, applyShot_rejected hrej,
        handleShot_rejected hrej]
      exact ⟨rfl, rfl⟩
    · obtain ⟨hgo, hh⟩ := not_rejected_flags hrej
      have hhit2 : (getCell (handleShot s r c).board r c).hit = true :=
        handleShot_target_hit hwf hr hc hgo hh
      rw [applyShot_rejected (Or.inr hhit2), handleShot_rejected (Or.inr hhit2)]
      exact ⟨rfl, rfl⟩

/-- Witness for C3: the 17th fleet cell of the demo board, shot twice. -/
theorem C3_witness :
    (applyShot (handleShot (freshState demoBoard) 0 0) 0 0).changed = false ∧
    handleShot (handleShot (freshState demoBoard) 0 0) 0 0 =
      handleShot (freshState demoBoard) 0 0 :=
  (C3_rejected_shots_no_op (freshState demoBoard) 0 0 BoardWF_demoBoard (by decide)
    (by decide)).2

/-- C4: every board that `buildBoard` returns (placement succeeded within the
retry budget) has exactly 17 `hasShip` cells; placements are keyed in
catalogue order, each has length equal to its ship's size and is one
contiguous axis-aligned run; and the five coordinate lists are pairwise
disjoint. -/
theorem C4_buildBoard_invariants (g : Rng) (b : Board) (ps : Placements)
    (h : buildBoard g = some (b, ps)) :
    (shipSet b).card = 17 ∧
    List.Forall₂ (fun p s => p.1 = s.id ∧ p.2.length = s.size ∧ IsSegment p.2)
      ps SHIPS ∧
    ps.Pairwise fun p q => ∀ rc, rc ∈ p.2 → rc ∉ q.2 := by
  obtain ⟨inv, hfa⟩ := buildBoard_inv h
  refine ⟨?_, hfa, inv.disj⟩
  rw [shipSet_card_eq inv, flatMap_length_of_forall2 hfa]
  decide

/-- Witness for C4 on the board built by the deterministic stream `g1`. -/
theorem C4_witness :
    (shipSet demoBoard).card = 17 ∧
    List.Forall₂ (fun p s => p.1 = s.id ∧ p.2.length = s.size ∧ IsSegment p.2)
      demoPlacements SHIPS ∧
    demoPlacements.Pairwise fun p q => ∀ rc, rc ∈ p.2 → rc ∉ q.2 :=
  C4_buildBoard_invariants g1 demoBoard demoPlacements buildBoard_g1_eq

theorem handleShot_sunk_accepted {s : GameState} {r c : Nat}
    (hgo : s.gameOver = false) (hh : (getCell s.board r c).hit = false) :
    (handleShot s r c).sunk =
      if (if (getCell s.board r c).hasShip = true then
            updateAfterHit (setCell s.board r c { getCell s.board r c with hit := true })
              (getCell (setCell s.board r c
                { getCell s.board r c with hit := true }) r c).shipId
          else (setCell s.board r c { getCell s.board r c with hit := true }, false)).2
          = true
      then s.sunk + 1 else s.sunk := by
  rw [handleShot_accepted hgo hh]

/-- C5: an accepted shot on a ship cell marks that cell `hit`; the `sunk`
counter increments (the `justSunk` report) exactly when every cell of the
owning ship is hit on the post-shot board — a condition on the current `hit`
flags only, so the order in which the ship's cells were hit cannot affect
it — and in that case every cell of the ship is marked `sunk`; otherwise the
board receives no sunk marks and the counter is unchanged. -/
theorem C5_sunk_detection (s : GameState) (r c : Nat) (sid : String)
    (hwf : BoardWF s.board) (hr : r < GRID_SIZE) (hc : c < GRID_SIZE)
    (hgo : s.gameOver = false) (hh : (getCell s.board r c).hit = false)
    (hship : (getCell s.board r c).hasShip = true)
    (hsid : (getCell s.board r c).shipId = some sid) :
    (getCell (handleShot s r c).board r c).hit = true ∧
    ((handleShot s r c).sunk = s.sunk + 1 ↔
      ∀ rc ∈ getShipCells
        (setCell s.board r c { getCell s.board r c with hit := true }) sid,
        (getCell (setCell s.board r c { getCell s.board r c with hit := true })
          rc.1 rc.2).hit = true) ∧
    (isShipSunk (setCell s.board r c { getCell s.board r c with hit := true }) sid
        = true →
      (handleShot s r c).board =
        markShipSunk (setCell s.board r c { getCell s.board r c with hit := true })
          sid ∧
      ∀ rc ∈ getShipCells
        (setCell s.board r c { getCell s.board r c with hit := true }) sid,
        (getCell (handleShot s r c).board rc.1 rc.2).sunk = true) ∧
    (isShipSunk (setCell s.board r c { getCell s.board r c with hit := true }) sid
        = false →
      (handleShot s r c).board =
        setCell s.board r c { getCell s.board r c with hit := true } ∧
      (handleShot s r c).sunk = s.sunk) := by
  set nb := setCell s.board r c { getCell s.board r c with hit := true } with hnbdef
  have hwfnb : BoardWF nb := BoardWF_setCell hwf ..
  have hnb : getCell nb r c = { getCell s.board r c with hit := true } :=
    getCell_setCell_self hwf hr hc _
  have hsid2 : (getCell nb r c).shipId = some sid := by
    rw [hnb]
    exact hsid
  have hboard : (handleShot s r c).board = (updateAfterHit nb (some sid)).1 := by
    rw [handleShot_board_accepted hgo hh, if_pos hship, ← hnbdef, hsid2]
  have hsunk : (handleShot s r c).sunk =
      if (updateAfterHit nb (some sid)).2 = true then s.sunk + 1 else s.sunk := by
    rw [handleShot_sunk_accepted hgo hh, if_pos hship, ← hnbdef, hsid2]
  refine ⟨handleShot_target_hit hwf hr hc hgo hh, ?_, ?_, ?_⟩
  · rw [hsunk, updateAfterHit_some_def]
    by_cases hs : isShipSunk nb sid = true
    · rw [if_pos hs]
      simp only [if_pos rfl]
      exact ⟨fun _ => (isShipSunk_iff nb sid).mp hs, fun _ => rfl⟩
    · rw [if_neg hs]
      simp only [if_neg (Bool.false_ne_true ∘ fun hx => hx)]
      constructor
      · intro hx
        exact absurd hx (Nat.ne_of_lt (Nat.lt_succ_self _))
      · intro hall
        exact absurd ((isShipSunk_iff nb sid).mpr hall) hs
  · intro hs
    have hbm : (handleShot s r c).board = markShipSunk nb sid := by
      rw [hboard, updateAfterHit_some_def, if_pos hs]
    refine ⟨hbm, fun rc hrc => ?_⟩
    rw [hbm, getCell_markShipSunk hwfnb sid rc.1 rc.2,
      if_pos ⟨(mem_getShipCells.mp hrc).1, (mem_getShipCells.mp hrc).2.1,
        (mem_getShipCells.mp hrc).2.2⟩]
  · intro hs
    have hs2 : ¬ isShipSunk nb sid = true := by
      rw [hs]
      exact Bool.false_ne_true
    constructor
    · rw [hboard, updateAfterHit_some_def, if_neg hs2]
    · rw [hsunk, updateAfterHit_some_def, if_neg hs2]
      simp

/-- Witness for C5: the fifth hit on ship A of the demo board sinks it. -/
theorem C5_witness :
    (getCell (handleShot demoMidGame 0 4).board 0 4).hit = true ∧
    (handleShot demoMidGame 0 4).board =
      markShipSunk (setCell demoMidGame.board 0 4
        { getCell demoMidGame.board 0 4 with hit := true }) "A" :=
  ⟨(C5_sunk_detection demoMidGame 0 4 "A"
      (BoardWF_playGame BoardWF_demoBoard _) (by decide) (by decide) (by decide)
      (by decide) (by decide) (by decide)).1,
   ((C5_sunk_detection demoMidGame 0 4 "A"
      (BoardWF_playGame BoardWF_demoBoard _) (by decide) (by decide) (by decide)
      (by decide) (by decide) (by decide)).2.2.1 (by decide)).1⟩

/-- C6: the claim as stated is false on this code: with the all-zeros stream
the 500-attempt search for ship B finds no valid position, and the resulting
placement failure is not recovered by retrying the whole generation —
`buildBoard` and `newGame` both return the failure to their caller. -/
theorem C6_counterexample :
    placeShip boardOnlyA ⟨"B", 4, "Acorazado"⟩ gBad 3 = none ∧
    buildBoard gBad = none ∧ newGame gBad = none := by
  refine ⟨by decide, by decide, by decide⟩

/-- C6 (amended): when the 500-attempt placement search for a ship fails,
the failure propagates: the enclosing build loop aborts immediately and a
game cannot start; there is no internal retry from an empty board. -/
theorem C6_placement_failure_propagates (g : Rng) (i : Nat) (b : Board)
    (ship : Ship) (rest : List Ship) (ps : Placements)
    (h : placeShip b ship g i = none) (h2 : buildBoard g = none) :
    buildBoardAux g (ship :: rest) b ps i = none ∧ newGame g = none := by
  constructor
  · show (match placeShip b ship g i with
      | none => none
      | some (b2, coords, i2) =>
        buildBoardAux g rest b2 (ps ++ [(ship.id, coords)]) i2) = none
    rw [h]
  · show (match buildBoard g with
      | none => none
      | some (b2, ps2) => some (freshState b2, ps2)) = none
    rw [h2]

/-- Witness for the C6 amendment at the all-zeros stream. -/
theorem C6_witness :
    buildBoardAux gBad [⟨"B", 4, "Acorazado"⟩] boardOnlyA [] 3 = none ∧
    newGame gBad = none :=
  C6_placement_failure_propagates gBad 3 boardOnlyA ⟨"B", 4, "Acorazado"⟩ [] []
    (by decide) (by decide)

/-- C7: an accepted shot changes only the targeted cell's `hit` flag and, when
it sinks a ship, the `sunk` flags of that ship's cells (raised to true);
`hasShip` and `shipId` are unchanged on every cell, `hit` is unchanged on
every other cell, and any `sunk` change happens on a cell of the owning ship
only. -/
theorem C7_frame_condition (s : GameState) (r c : Nat)
    (hwf : BoardWF s.board) (hr : r < GRID_SIZE) (hc : c < GRID_SIZE)
    (hacc : (applyShot s r c).changed = true) :
    (getCell (handleShot s r c).board r c).hit = true ∧
    ∀ r2 c2,
      ((getCell (handleShot s r c).board r2 c2).hasShip =
        (getCell s.board r2 c2).hasShip) ∧
      ((getCell (handleShot s r c).board r2 c2).shipId =
        (getCell s.board r2 c2).shipId) ∧
      ((r2 ≠ r ∨ c2 ≠ c) →
        (getCell (handleShot s r c).board r2 c2).hit =
          (getCell s.board r2 c2).hit) ∧
      ((getCell (handleShot s r c).board r2 c2).sunk ≠
          (getCell s.board r2 c2).sunk →
        (getCell s.board r2 c2).shipId = (getCell s.board r c).shipId ∧
        (getCell (handleShot s r c).board r2 c2).sunk = true) := by
  obtain ⟨hgo, hh⟩ := accepted_flags hacc
  have hb := handleShot_board_accepted hgo hh
  have hnb : getCell (setCell s.board r c { getCell s.board r c with hit := true }) r c
      = { getCell s.board r c with hit := true } := getCell_setCell_self hwf hr hc _
  have hwfnb : BoardWF (setCell s.board r c { getCell s.board r c with hit := true }) :=
    BoardWF_setCell hwf ..
  refine ⟨handleShot_target_hit hwf hr hc hgo hh, fun r2 c2 => ?_⟩
  have hset := setCell_hit_fields s.board r c r2 c2
  by_cases hship : (getCell s.board r c).hasShip = true
  · have hbu : (handleShot s r c).board =
        (updateAfterHit (setCell s.board r c { getCell s.board r c with hit := true })
          (getCell (setCell s.board r c
            { getCell s.board r c with hit := true }) r c).shipId).1 := by
      rw [hb, if_pos hship]
    have hupd := updateAfterHit_fields
      (setCell s.board r c { getCell s.board r c with hit := true })
      (getCell (setCell s.board r c
        { getCell s.board r c with hit := true }) r c).shipId r2 c2
    rw [hbu]
    refine ⟨by rw [hupd.1, hset.1], by rw [hupd.2.1, hset.2.1],
      fun hne => by rw [hupd.2.2, hset.2.2.2 hne], fun hdiff => ?_⟩
    rw [← hset.2.2.1] at hdiff
    obtain ⟨h1, h2⟩ := updateAfterHit_sunk_change hwfnb _ r2 c2 hdiff
    refine ⟨?_, h2⟩
    rw [← hset.2.1, h1, hnb]
  · have hbnb : (handleShot s r c).board =
        setCell s.board r c { getCell s.board r c with hit := true } := by
      rw [hb, if_neg hship]
    rw [hbnb]
    exact ⟨hset.1, hset.2.1, hset.2.2.2,
      fun hdiff => absurd hset.2.2.1 hdiff⟩

/-- Witness for C7: first shot of a fresh demo game, with a far-away cell
checked for the frame. -/
theorem C7_witness :
    (getCell (handleShot (freshState demoBoard) 0 0).board 0 0).hit = true ∧
    (getCell (handleShot (freshState demoBoard) 0 0).board 5 5).shipId =
      (getCell (freshState demoBoard).board 5 5).shipId :=
  ⟨(C7_frame_condition (freshState demoBoard) 0 0 BoardWF_demoBoard (by decide)
      (by decide) (by decide)).1,
   ((C7_frame_condition (freshState demoBoard) 0 0 BoardWF_demoBoard (by decide)
      (by decide) (by decide)).2 5 5).2.1⟩

/-- C8: along any sequence of shots of one game (no reset), the counters
`shots`, `hits`, `sunkCount` are non-decreasing, and per-cell `hit` and
`sunk` flags, once true, never revert to false. -/
theorem C8_monotonicity (s : GameState) (l : List (Nat × Nat)) :
    s.shots ≤ (playGame s l).shots ∧ s.hits ≤ (playGame s l).hits ∧
    s.sunk ≤ (playGame s l).sunk ∧
    ∀ r c,
      ((getCell s.board r c).hit = true →
        (getCell (playGame s l).board r c).hit = true) ∧
      ((getCell s.board r c).sunk = true →
        (getCell (playGame s l).board r c).sunk = true) :=
  playGame_mono s l

/-- Witness for C8 on the finished demo game plus one further shot. -/
theorem C8_witness :
    (playGame (freshState demoBoard) demoShots).shots ≤
      (playGame (playGame (freshState demoBoard) demoShots) [(9, 9)]).shots ∧
    (getCell (playGame (playGame (freshState demoBoard) demoShots)
      [(9, 9)]).board 0 0).hit = true :=
  ⟨(C8_monotonicity (playGame (freshState demoBoard) demoShots) [(9, 9)]).1,
   ((C8_monotonicity (playGame (freshState demoBoard) demoShots)
      [(9, 9)]).2.2.2 0 0).1 (by decide)⟩

/-- C9: for a ship of length `L ≤ 10` the origin draws satisfy the
`dirLimits` bounds — along the ship's direction the origin coordinate is at
most `GRID_SIZE - L`, perpendicular at most `GRID_SIZE - 1` — and every one
of the `L` probed cells lies strictly inside the 10×10 grid. -/
theorem C9_sampling_in_bounds (size : Nat) (h2 : size ≤ GRID_SIZE) (d : Dir)
    (g : Rng) (i j k : Nat) (hk : k < size) :
    randomInt g i (dirLimits d size).1 < (dirLimits d size).1 ∧
    randomInt g j (dirLimits d size).2 < (dirLimits d size).2 ∧
    (d = Dir.H → randomInt g j (dirLimits d size).2 ≤ GRID_SIZE - size ∧
      randomInt g i (dirLimits d size).1 ≤ GRID_SIZE - 1) ∧
    (d = Dir.V → randomInt g i (dirLimits d size).1 ≤ GRID_SIZE - size ∧
      randomInt g j (dirLimits d size).2 ≤ GRID_SIZE - 1) ∧
    randomInt g i (dirLimits d size).1 + (getStep d k).1 < GRID_SIZE ∧
    randomInt g j (dirLimits d size).2 + (getStep d k).2 < GRID_SIZE := by
  have hp := dirLimits_pos d size
  have h1 : randomInt g i (dirLimits d size).1 < (dirLimits d size).1 :=
    Nat.mod_lt _ hp.1
  have hj : randomInt g j (dirLimits d size).2 < (dirLimits d size).2 :=
    Nat.mod_lt _ hp.2
  have hbnd := segCoords_bounds h2 d h1 hj
    (randomInt g i (dirLimits d size).1 + (getStep d k).1,
     randomInt g j (dirLimits d size).2 + (getStep d k).2)
    (List.mem_map.mpr ⟨k, List.mem_range.mpr hk, rfl⟩)
  refine ⟨h1, hj, ?_, ?_, hbnd.1, hbnd.2⟩
  · rintro rfl
    have hx : randomInt g j (dirLimits Dir.H size).2 < 10 - size + 1 := by
      simpa [dirLimits, GRID_SIZE] using hj
    have hy : randomInt g i (dirLimits Dir.H size).1 < 10 := by
      simpa [dirLimits, GRID_SIZE] using h1
    constructor
    · show randomInt g j (dirLimits Dir.H size).2 ≤ 10 - size
      omega
    · show randomInt g i (dirLimits Dir.H size).1 ≤ 9
      omega
  · rintro rfl
    have hx : randomInt g i (dirLimits Dir.V size).1 < 10 - size + 1 := by
      simpa [dirLimits, GRID_SIZE] using h1
    have hy : randomInt g j (dirLimits Dir.V size).2 < 10 := by
      simpa [dirLimits, GRID_SIZE] using hj
    constructor
    · show randomInt g i (dirLimits Dir.V size).1 ≤ 10 - size
      omega
    · show randomInt g j (dirLimits Dir.V size).2 ≤ 9
      omega

/-- Witness for C9 at the carrier's last cell with the `g1` stream. -/
theorem C9_witness :
    randomInt g1 0 (dirLimits Dir.H 5).1 + (getStep Dir.H 4).1 < GRID_SIZE ∧
    randomInt g1 1 (dirLimits Dir.H 5).2 + (getStep Dir.H 4).2 < GRID_SIZE :=
  ⟨(C9_sampling_in_bounds 5 (by decide) Dir.H g1 0 1 4 (by decide)).2.2.2.2.1,
   (C9_sampling_in_bounds 5 (by decide) Dir.H g1 0 1 4 (by decide)).2.2.2.2.2⟩

/-- C10: every operation preserves the cell invariant `hasShip = true ↔
shipId ≠ null`: it holds on the empty board, on every board `buildBoard`
returns, it is preserved by every shot (which never touches either field),
and it holds for the board of every new game (and so of every reset). -/
theorem C10_cell_invariant :
    BoardInv createEmptyBoard ∧
    (∀ g b ps, buildBoard g = some (b, ps) → BoardInv b) ∧
    (∀ s r c, BoardInv s.board → BoardInv (handleShot s r c).board) ∧
    (∀ g gs ps, newGame g = some (gs, ps) → BoardInv gs.board) := by
  have hbuild : ∀ g b ps, buildBoard g = some (b, ps) → BoardInv b := by
    intro g b ps h r hr c hc
    exact (buildBoard_inv h).1.ids r c
  refine ⟨?_, hbuild, ?_, ?_⟩
  · intro r hr c hc
    rw [getCell_createEmptyBoard]
    simp [emptyCell]
  · intro s r c hinv r2 hr2 c2 hc2
    rcases handleShot_board_cases s r c r2 c2 with h | h | h | h <;> rw [h] <;>
      exact hinv r2 hr2 c2 hc2
  · intro g gs ps h
    cases hb : buildBoard g with
    | none =>
      rw [show newGame g = (match buildBoard g with
        | none => none
        | some (b2, ps2) => some (freshState b2, ps2)) from rfl, hb] at h
      exact absurd h (by simp)
    | some x =>
      obtain ⟨b2, ps2⟩ := x
      rw [show newGame g = (match buildBoard g with
        | none => none
        | some (b2, ps2) => some (freshState b2, ps2)) from rfl, hb] at h
      have hx := Option.some.inj h
      simp only [Prod.mk.injEq] at hx
      rw [← hx.1]
      exact hbuild g b2 ps2 hb

/-- Witness for C10 on the demo board. -/
theorem C10_witness : BoardInv demoBoard :=
  C10_cell_invariant.2.1 g1 demoBoard demoPlacements buildBoard_g1_eq

end Battleship
